import Mathlib

/-!
Verification development for `dsym_to_index_ranges.py`: a translator from
textual DWARF debug-information dumps into a sorted table of named address
ranges.  The script is embedded shallowly: each regular expression of the
source is rendered as a deterministic matcher over `List Char` (for every
pattern of the source, greedy matching never needs backtracking, because
each quantified character class is disjoint from the character that must
follow it), dictionaries become association lists, and the dynamically
terminating name-resolution recursion is given explicit fuel of
`dies.length + 1`, which bounds its real recursion depth (the visited set
grows by one fresh indexable offset per nested call).
-/

/-! ### Character classes (ASCII fragment of Python `re` classes) -/

/-- Python `\s` on the ASCII range: space, tab, newline, vertical tab,
form feed, carriage return. -/
def isPySpace (c : Char) : Bool :=
  c = ' ' || c = '\t' || c = '\n' || c = '\x0b' || c = '\x0c' || c = '\r'

/-- The class `[0-9a-fA-F]`. -/
def isHexDigitCh (c : Char) : Bool :=
  ('0' ≤ c && c ≤ '9') || ('a' ≤ c && c ≤ 'f') || ('A' ≤ c && c ≤ 'F')

/-- The class `[0-9A-Fa-fx]` used for the two address groups of `rx_dr`
(note: it admits a stray lowercase `x` anywhere). -/
def isHexXCh (c : Char) : Bool := isHexDigitCh c || c = 'x'

/-- The class `[0-9]`. -/
def isDigitCh (c : Char) : Bool := '0' ≤ c && c ≤ '9'

/-- The class `\w` on the ASCII range. -/
def isWordCh (c : Char) : Bool :=
  isDigitCh c || ('a' ≤ c && c ≤ 'z') || ('A' ≤ c && c ≤ 'Z') || c = '_'

/-- Value of one hexadecimal digit (either case). -/
def hexDigitVal (c : Char) : Nat :=
  if '0' ≤ c && c ≤ '9' then c.toNat - '0'.toNat
  else if 'a' ≤ c && c ≤ 'f' then c.toNat - 'a'.toNat + 10
  else if 'A' ≤ c && c ≤ 'F' then c.toNat - 'A'.toNat + 10
  else 0

/-- `int(s, 16)` on a string of hex digits. -/
def hexVal (l : List Char) : Nat := l.foldl (fun a c => a * 16 + hexDigitVal c) 0

/-- `int(s)` on a string of decimal digits. -/
def decVal (l : List Char) : Nat := l.foldl (fun a c => a * 10 + (c.toNat - '0'.toNat)) 0

/-- Consume an exact literal prefix; `none` when the input does not start
with it (all-or-nothing, as a regex literal). -/
def eatLit : List Char → List Char → Option (List Char)
  | [], l => some l
  | _ :: _, [] => none
  | p :: ps, c :: cs => if c = p then eatLit ps cs else none

/-! ### Range Table Builder (`ranges_map`, source lines 34-51)

`rx_dr = ^\s*([0-9a-fA-F]\x7b4,\x7d)\s+([0-9A-Fa-fx]+)\s+([0-9A-Fa-fx]+)`,
applied with `re.match` (anchored at the start of the line). -/

abbrev RangePair := Nat × Nat

/-- `ranges_map`: Python dict from offset to list of pairs, as an
association list in key-insertion order. -/
abbrev RangeTable := List (Nat × List RangePair)

def rtGet (t : RangeTable) (k : Nat) : Option (List RangePair) :=
  match t with
  | [] => none
  | (k', l) :: rest => if k' = k then some l else rtGet rest k

/-- `ranges_map.setdefault(off, []).append((s, e))`. -/
def rtAppend (t : RangeTable) (k : Nat) (pr : RangePair) : RangeTable :=
  match t with
  | [] => [(k, [pr])]
  | (k', l) :: rest => if k' = k then (k', l ++ [pr]) :: rest else (k', l) :: rtAppend rest k pr

/-- Anchored match of `rx_dr`, returning the three groups.  Greedy matching
is deterministic here: a shortened quantified run always leaves a character
of its own class where the (disjoint) follow class is required. -/
def rxDrMatch (l : List Char) : Option (List Char × List Char × List Char) :=
  let r1 := l.dropWhile isPySpace
  let g1 := r1.takeWhile isHexDigitCh
  if g1.length < 4 then none else
  let r2 := r1.dropWhile isHexDigitCh
  if (r2.takeWhile isPySpace).isEmpty then none else
  let r3 := r2.dropWhile isPySpace
  let g2 := r3.takeWhile isHexXCh
  if g2.isEmpty then none else
  let r4 := r3.dropWhile isHexXCh
  if (r4.takeWhile isPySpace).isEmpty then none else
  let r5 := r4.dropWhile isPySpace
  let g3 := r5.takeWhile isHexXCh
  if g3.isEmpty then none else
  some (g1, g2, g3)

/-- Source lines 43-46: lowercase the group, normalize a missing `0x`
prefix, then `int(a, 16)`; `none` models the uncaught `ValueError` (the
group class admits a stray `x`, on which `int` raises). -/
def parseAddrTok (g : List Char) : Option Nat :=
  let a := g.map Char.toLower
  let digits := match a with
    | '0' :: 'x' :: rest => rest
    | _ => a
  if digits.isEmpty then none
  else if digits.all isHexDigitCh then some (hexVal digits) else none

/-- One iteration of the `ranges_map` loop on one line; `none` models an
uncaught exception aborting the run. -/
def drLine (t : RangeTable) (l : List Char) : Option RangeTable :=
  match rxDrMatch l with
  | none => some t
  | some (g1, g2, g3) =>
    match parseAddrTok g2, parseAddrTok g3 with
    | some s, some e =>
      if s = 0 ∧ e = 0 then some t else some (rtAppend t (hexVal g1) (s, e))
    | _, _ => none

/-- The whole construction loop over the ranges dump. -/
def buildRanges (ls : List (List Char)) : Option RangeTable :=
  ls.foldl (fun acc l => match acc with | none => none | some t => drLine t l) (some [])

example : rxDrMatch ("001000  0x100  0x200".data) =
    some ("001000".data, "0x100".data, "0x200".data) := by decide
example : buildRanges ["001000  0x0  0x0".data, "001000  0x100  0x200".data] =
    some [(4096, [(256, 512)])] := by decide
example : rxDrMatch ("123 0x100 0x200".data) = none := by decide

/-! ### Debug Entry Builder (source lines 53-100) -/

/-- One DIE, the dict built by the parsing loop: absent dict keys are
`none`. -/
structure Die where
  tag : String
  off : Option Nat := none
  low : Option Nat := none
  high : Option Nat := none
  ranges_off : Option Nat := none
  name : Option String := none
  abs : Option Nat := none
  spec : Option Nat := none
deriving Repr, DecidableEq

/-- `\s*` then `(`, shared opener of the parenthesised attribute values. -/
def eatParen (l : List Char) : Option (List Char) :=
  eatLit ['('] (l.dropWhile isPySpace)

/-- After the attribute keyword: `\s*\(\s*(?:addr:\s*)?0x([0-9a-fA-F]+)\s*\)`
(shared by `rx_low` and `rx_hia`). -/
def matchHexParen (l : List Char) : Option Nat :=
  match eatParen l with
  | none => none
  | some r2 =>
    let r3 := r2.dropWhile isPySpace
    let r4 := match eatLit ("addr:".data) r3 with
      | some rr => rr.dropWhile isPySpace
      | none => r3
    match eatLit ("0x".data) r4 with
    | none => none
    | some r5 =>
      let g := r5.takeWhile isHexDigitCh
      if g.isEmpty then none
      else
        match eatLit [')'] ((r5.dropWhile isHexDigitCh).dropWhile isPySpace) with
        | none => none
        | some _ => some (hexVal g)

/-- `\s*\(\s*0x([0-9a-fA-F]+)\s*\)` (shared by `rx_ranges`, `rx_abs`,
`rx_spec`: same shape, without the optional `addr:`). -/
def matchHexParenPlain (l : List Char) : Option Nat :=
  match eatParen l with
  | none => none
  | some r2 =>
    match eatLit ("0x".data) (r2.dropWhile isPySpace) with
    | none => none
    | some r5 =>
      let g := r5.takeWhile isHexDigitCh
      if g.isEmpty then none
      else
        match eatLit [')'] ((r5.dropWhile isHexDigitCh).dropWhile isPySpace) with
        | none => none
        | some _ => some (hexVal g)

/-- `\s*\(\s*udata:\s*([0-9]+)\s*\)` for `rx_hiud`. -/
def matchUdataParen (l : List Char) : Option Nat :=
  match eatParen l with
  | none => none
  | some r2 =>
    match eatLit ("udata:".data) (r2.dropWhile isPySpace) with
    | none => none
    | some r4 =>
      let r5 := r4.dropWhile isPySpace
      let g := r5.takeWhile isDigitCh
      if g.isEmpty then none
      else
        match eatLit [')'] ((r5.dropWhile isDigitCh).dropWhile isPySpace) with
        | none => none
        | some _ => some (decVal g)

/-- The lazy group of `\("(.+?)"\)`: the shortest non-empty run of
characters followed by `")`. -/
def scanLazy (acc : List Char) : List Char → Option (List Char)
  | [] => none
  | ['"'] => none
  | '"' :: ')' :: _ => some acc.reverse
  | c :: rest => scanLazy (c :: acc) rest

/-- `\s*\("(.+?)"\)` for `rx_name` and `rx_link`. -/
def matchQuotedParen (l : List Char) : Option String :=
  match eatParen l with
  | none => none
  | some r2 =>
    match eatLit ['"'] r2 with
    | none => none
    | some r3 =>
      match r3 with
      | [] => none
      | c :: rest => (scanLazy [c] rest).map (fun g => String.mk g)

/-- A whole-pattern attempt at one position: keyword then value shape. -/
def matchKeyAt (key : List Char) (value : List Char → Option α) (l : List Char) : Option α :=
  match eatLit key l with
  | none => none
  | some r => value r

/-- `re.search`: try the pattern at every position, leftmost match wins. -/
def searchWith (m : List Char → Option α) : List Char → Option α
  | [] => m []
  | c :: cs =>
    match m (c :: cs) with
    | some r => some r
    | none => searchWith m cs

def searchLow (l : List Char) : Option Nat :=
  searchWith (matchKeyAt ("DW_AT_low_pc".data) matchHexParen) l

def searchHia (l : List Char) : Option Nat :=
  searchWith (matchKeyAt ("DW_AT_high_pc".data) matchHexParen) l

def searchHiud (l : List Char) : Option Nat :=
  searchWith (matchKeyAt ("DW_AT_high_pc".data) matchUdataParen) l

def searchRanges (l : List Char) : Option Nat :=
  searchWith (matchKeyAt ("DW_AT_ranges".data) matchHexParenPlain) l

def searchName (l : List Char) : Option String :=
  searchWith (matchKeyAt ("DW_AT_name".data) matchQuotedParen) l

def searchLink (l : List Char) : Option String :=
  searchWith (matchKeyAt ("DW_AT_linkage_name".data) matchQuotedParen) l

def searchAbs (l : List Char) : Option Nat :=
  searchWith (matchKeyAt ("DW_AT_abstract_origin".data) matchHexParenPlain) l

def searchSpec (l : List Char) : Option Nat :=
  searchWith (matchKeyAt ("DW_AT_specification".data) matchHexParenPlain) l

/-- At one position: `(DW_TAG_|TAG_)(\w+)`.  When the input starts with
`DW_TAG_` the `TAG_` alternative cannot match at the same position, so no
backtracking across alternatives is needed. -/
def matchTagAt (l : List Char) : Option String :=
  match eatLit ("DW_TAG_".data) l with
  | some r =>
    let g := r.takeWhile isWordCh
    if g.isEmpty then none else some (String.mk g)
  | none =>
    match eatLit ("TAG_".data) l with
    | some r =>
      let g := r.takeWhile isWordCh
      if g.isEmpty then none else some (String.mk g)
    | none => none

/-- `rx_any_tag.search`: `\b(DW_TAG_|TAG_)(\w+)`.  The leading `\b` holds
exactly when the previous character is not a word character (both
alternatives start with a word character). -/
def searchTagFrom (prevWord : Bool) : List Char → Option String
  | [] => none
  | c :: cs =>
    match (if prevWord then none else matchTagAt (c :: cs)) with
    | some g => some g
    | none => searchTagFrom (isWordCh c) cs

def searchTag (l : List Char) : Option String := searchTagFrom false l

/-- `rx_die_off.match`: `^\s*0x([0-9a-fA-F]+):`. -/
def matchDieOff (l : List Char) : Option Nat :=
  match eatLit ("0x".data) (l.dropWhile isPySpace) with
  | none => none
  | some r =>
    let g := r.takeWhile isHexDigitCh
    if g.isEmpty then none
    else
      match eatLit [':'] (r.dropWhile isHexDigitCh) with
      | none => none
      | some _ => some (hexVal g)

/-- Source lines 79-94: the attribute `if`-chain applied to the open
entry.  A guarded branch whose guard fails (`high` without `low`, linkage
name with a name already set) falls through to the later patterns, exactly
as the Python `if m and ...` chain does. -/
def applyAttr (cur : Die) (l : List Char) : Die :=
  match searchLow l with
  | some v => { cur with low := some v }
  | none =>
  match searchHia l, cur.low with
  | some v, some _ => { cur with high := some v }
  | _, _ =>
  match searchHiud l, cur.low with
  | some v, some lo => { cur with high := some (lo + v) }
  | _, _ =>
  match searchRanges l with
  | some v => { cur with ranges_off := some v }
  | none =>
  match searchName l with
  | some v => { cur with name := some v }
  | none =>
  match searchLink l, cur.name with
  | some v, none => { cur with name := some v }
  | _, _ =>
  match searchAbs l with
  | some v => { cur with abs := some v }
  | none =>
  match searchSpec l with
  | some v => { cur with spec := some v }
  | none => cur

/-- Source lines 68-94: one line of the debug-info dump applied to
(closed entries, open entry). -/
def diStep (st : List Die × Option Die) (l : List Char) : List Die × Option Die :=
  match searchTag l with
  | some tg =>
    let d : Die := { tag := "DW_TAG_" ++ tg, off := matchDieOff l }
    match st.2 with
    | some cur => (st.1 ++ [cur], some d)
    | none => (st.1, some d)
  | none =>
    match st.2 with
    | none => st
    | some cur => (st.1, some (applyAttr cur l))

/-- The whole debug-info pass, including the final flush (line 95). -/
def buildDies (ls : List (List Char)) : List Die :=
  match ls.foldl diStep ([], none) with
  | (ds, some cur) => ds ++ [cur]
  | (ds, none) => ds

/-- `dies_by_off` (line 100): offset-keyed index; a later entry with the
same offset overwrites an earlier one. -/
def dies_by_off (dies : List Die) (ref : Nat) : Option Die :=
  dies.foldl
    (fun acc d => match d.off with
      | some o => if o = ref then some d else acc
      | none => acc) none

example : searchTag ("0x0000004e:   DW_TAG_subprogram".data) = some "subprogram" := by decide
example : matchDieOff ("0x0000004e:   DW_TAG_subprogram".data) = some 78 := by decide
example : searchLow ("              DW_AT_low_pc  (0x0000000100003f50)".data) =
    some 4294983504 := by decide
example : searchHiud ("              DW_AT_high_pc (udata: 16)".data) = some 16 := by decide
example : searchHia ("              DW_AT_high_pc (udata: 16)".data) = none := by decide
example : searchName ("              DW_AT_name    (\"obf\")".data) = some "obf" := by decide
example : searchName ("              DW_AT_linkage_name (\"x\")".data) = none := by decide
example :
    buildDies ["0x0000004e:   DW_TAG_subprogram".data,
               "  DW_AT_low_pc  (0x10)".data,
               "  DW_AT_high_pc (udata: 16)".data,
               "  DW_AT_name (\"obf\")".data] =
    [{ tag := "DW_TAG_subprogram", off := some 78, low := some 16, high := some 32,
       name := some "obf" }] := by decide

/-! ### Resolver (source lines 102-116) -/

/-- The optional rename map (`name_map`, a JSON object). -/
abbrev NameMap := List (String × String)

/-- `name_map.get(k, k)`. -/
def mapGet (nm : NameMap) (k : String) : String :=
  match nm with
  | [] => k
  | (a, b) :: rest => if a = k then b else mapGet rest k

/-- Python string truthiness of an optional string: `None` and `""` are
falsy. -/
def truthyS : Option String → Bool
  | none => false
  | some s => !(s == "")

/-- `resolve_name(d, seen)` with explicit fuel.  The `seen` set is a single
mutable set per top-level call in the source, so each recursive call
returns the updated set, which threads from the `abs` attempt into the
`spec` attempt.  Fuel only decreases across a recursive call, which in the
source happens only after inserting a fresh indexable offset into `seen`,
so `dies.length + 1` fuel is never exhausted. -/
def resolveAux (nm : NameMap) (dies : List Die) :
    Nat → Die → List Nat → Option String × List Nat
  | 0, _, seen => (none, seen)
  | fuel + 1, d, seen =>
    if truthyS d.name then (d.name.map (mapGet nm), seen)
    else
      let p1 : Option String × List Nat :=
        match d.abs with
        | none => (none, seen)
        | some ref =>
          if ref ∈ seen then (none, seen)
          else
            match dies_by_off dies ref with
            | none => (none, seen ++ [ref])
            | some d2 => resolveAux nm dies fuel d2 (seen ++ [ref])
      if truthyS p1.1 then (p1.1.map (mapGet nm), p1.2)
      else
        let p2 : Option String × List Nat :=
          match d.spec with
          | none => (none, p1.2)
          | some ref =>
            if ref ∈ p1.2 then (none, p1.2)
            else
              match dies_by_off dies ref with
              | none => (none, p1.2 ++ [ref])
              | some d2 => resolveAux nm dies fuel d2 (p1.2 ++ [ref])
        if truthyS p2.1 then (p2.1.map (mapGet nm), p2.2)
        else (none, p2.2)

/-- Top-level `resolve_name(d)` (fresh empty `seen`). -/
def resolve_name (nm : NameMap) (dies : List Die) (d : Die) : Option String :=
  (resolveAux nm dies (dies.length + 1) d []).1

/-! ### Swift demangle model (source lines 118-163)

The external tool invocation is a black box, abstracted as a function
`dem : String → String` giving the trimmed standard output of
`swift-demangle --compact`; `swiftOk` is `_swift_ok` (the demangle toggle
and capability probe). -/

def startsWithL (p l : List Char) : Bool := (eatLit p l).isSome

/-- `SWIFT_MANGLED_RX.match`: the anchored pattern matches exactly when
the string starts with one of the four recognized mangling markers. -/
def SWIFT_MANGLED (s : String) : Bool :=
  startsWithL ("$s".data) s.data || startsWithL ("_$s".data) s.data ||
  startsWithL ("_T".data) s.data || startsWithL ("$S".data) s.data

def swift_demangle_one (swiftOk : Bool) (dem : String → String) (mangled : String) : String :=
  if !swiftOk then mangled
  else if !(SWIFT_MANGLED mangled) then mangled
  else
    let s := dem mangled
    if s == "" then mangled else s

def maybe_demangle (nm : NameMap) (swiftOk : Bool) (dem : String → String)
    (name : String) : String :=
  if name == "" then name
  else swift_demangle_one swiftOk dem (mapGet nm name)

/-! ### Emission (source lines 166-193) -/

/-- One output triple (start, end, name). -/
abbrev FuncRange := Nat × Nat × String

/-- Python `a or b` on optional strings. -/
def pyOr (a b : Option String) : Option String := if truthyS a then a else b

/-- Line 171: `name = resolve_name(d) or d.get('name')`. -/
def dieName (nm : NameMap) (dies : List Die) (d : Die) : Option String :=
  pyOr (resolve_name nm dies d) d.name

/-- Line 172: `name = maybe_demangle(name) if name else None`. -/
def finalName (nm : NameMap) (dies : List Die) (swiftOk : Bool) (dem : String → String)
    (d : Die) : Option String :=
  let n0 := dieName nm dies d
  if truthyS n0 then n0.map (maybe_demangle nm swiftOk dem) else none

/-- Lines 174-176: the direct low/high contribution of one entry, with the
missing-name counter increment. -/
def emitDirect (nm? : Option String) (d : Die) : List FuncRange × Nat :=
  match d.low, d.high with
  | some lo, some hi =>
    if lo < hi then
      match nm? with
      | some n => if n == "" then ([], 1) else ([(lo, hi, n)], 0)
      | none => ([], 1)
    else ([], 0)
  | _, _ => ([], 0)

/-- Lines 180-183: the loop over one range-table entry. -/
def emitPairs (nm? : Option String) : List RangePair → List FuncRange × Nat
  | [] => ([], 0)
  | (s, e) :: rest =>
    let r := emitPairs nm? rest
    if s < e then
      match nm? with
      | some n => if n == "" then (r.1, r.2 + 1) else ((s, e, n) :: r.1, r.2)
      | none => (r.1, r.2 + 1)
    else r

/-- Lines 178-183: the indirect (ranges-table) contribution of one entry. -/
def emitIndirect (rm : RangeTable) (nm? : Option String) (d : Die) : List FuncRange × Nat :=
  match d.ranges_off with
  | some ro =>
    match rtGet rm ro with
    | some prs => emitPairs nm? prs
    | none => ([], 0)
  | none => ([], 0)

def isSubLike (d : Die) : Bool :=
  d.tag == "DW_TAG_subprogram" || d.tag == "DW_TAG_inlined_subroutine"

/-- Lines 168-183: the whole per-entry body of the emission loop,
returning (emitted ranges in order, missing-name increments). -/
def emitDie (rm : RangeTable) (nm : NameMap) (dies : List Die) (swiftOk : Bool)
    (dem : String → String) (d : Die) : List FuncRange × Nat :=
  if !(isSubLike d) then ([], 0)
  else
    let nm? := finalName nm dies swiftOk dem d
    let p := emitDirect nm? d
    let q := emitIndirect rm nm? d
    (p.1 ++ q.1, p.2 + q.2)

/-- The full emission loop over all entries (`funcs`, `miss_name`). -/
def runEmit (rm : RangeTable) (nm : NameMap) (dies : List Die) (swiftOk : Bool)
    (dem : String → String) : List FuncRange × Nat :=
  dies.foldl
    (fun acc d =>
      let r := emitDie rm nm dies swiftOk dem d
      (acc.1 ++ r.1, acc.2 + r.2))
    ([], 0)

/-- The sort key of line 187: `(x['start'], x['end'])` under tuple order. -/
def frKeyLe (a b : FuncRange) : Prop :=
  a.1 < b.1 ∨ (a.1 = b.1 ∧ a.2.1 ≤ b.2.1)

instance : DecidableRel frKeyLe := fun a b => by unfold frKeyLe; infer_instance

instance : IsTotal FuncRange frKeyLe := ⟨by intro a b; unfold frKeyLe; omega⟩

instance : IsTrans FuncRange frKeyLe := ⟨by intro a b c; unfold frKeyLe; omega⟩

/-- Line 187: `funcs.sort(key=lambda x: (x['start'], x['end']))` — a stable
sort by that key. -/
def runFuncs (rm : RangeTable) (nm : NameMap) (dies : List Die) (swiftOk : Bool)
    (dem : String → String) : List FuncRange :=
  List.insertionSort frKeyLe (runEmit rm nm dies swiftOk dem).1

/-- The final JSON record of lines 188-193. -/
structure ResultRecord where
  image : String
  uuid : String
  arch : String
  functions : List FuncRange
deriving Repr, DecidableEq

def buildResult (image uuid arch : String) (rm : RangeTable) (nm : NameMap)
    (dies : List Die) (swiftOk : Bool) (dem : String → String) : ResultRecord :=
  { image := image, uuid := uuid, arch := arch,
    functions := runFuncs rm nm dies swiftOk dem }

example :
    runFuncs [(4096, [(256, 512)])] []
      [{ tag := "DW_TAG_subprogram", off := some 16, name := some "foo",
         ranges_off := some 4096 }] false (fun s => s) =
    [(256, 512, "foo")] := by decide

/-! ### Helper lemmas -/

theorem takeWhile_append_of_all {p : Char → Bool} {xs ys : List Char}
    (h : ∀ c ∈ xs, p c = true) (hy : ∀ c, ys.head? = some c → p c = false) :
    (xs ++ ys).takeWhile p = xs ∧ (xs ++ ys).dropWhile p = ys := by
  induction xs with
  | nil =>
    simp only [List.nil_append]
    cases ys with
    | nil => simp
    | cons c cs =>
      have := hy c rfl
      constructor
      · simp [List.takeWhile, this]
      · simp [List.dropWhile, this]
  | cons x xs ih =>
    have hx : p x = true := h x (List.mem_cons_self x xs)
    have ih' := ih (fun c hc => h c (List.mem_cons_of_mem x hc))
    simp [List.takeWhile, List.dropWhile, hx, ih'.1, ih'.2]

theorem space_not_hex {c : Char} (h : isPySpace c = true) : isHexDigitCh c = false := by
  unfold isPySpace at h
  simp only [Bool.or_eq_true, decide_eq_true_eq] at h
  rcases h with ((((h | h) | h) | h) | h) | h <;> subst h <;> rfl

theorem hex_not_space {c : Char} (h : isHexDigitCh c = true) : isPySpace c = false := by
  cases hs : isPySpace c with
  | false => rfl
  | true => rw [space_not_hex hs] at h; exact absurd h (by simp)

theorem rtGet_rtAppend_self (t : RangeTable) (k : Nat) (pr : RangePair) :
    rtGet (rtAppend t k pr) k = some ((rtGet t k).getD [] ++ [pr]) := by
  induction t with
  | nil => simp [rtAppend, rtGet]
  | cons kv rest ih =>
    obtain ⟨k', l⟩ := kv
    by_cases hk : k' = k
    · subst hk
      simp [rtAppend, rtGet]
    · simp [rtAppend, rtGet, hk, ih]

theorem rtGet_rtAppend_ne (t : RangeTable) (k : Nat) (pr : RangePair) (k' : Nat)
    (h : k' ≠ k) : rtGet (rtAppend t k pr) k' = rtGet t k' := by
  have hkk : k ≠ k' := fun hh => h hh.symm
  induction t with
  | nil => simp [rtAppend, rtGet, hkk]
  | cons kv rest ih =>
    obtain ⟨k0, l⟩ := kv
    by_cases hk : k0 = k
    · subst hk
      simp [rtAppend, rtGet, hkk]
    · by_cases hk' : k0 = k'
      · simp [rtAppend, rtGet, hk, hk', h]
      · simp [rtAppend, rtGet, hk, hk', h, ih]

/-- A `RangeTable` containing no (0,0) pair under any key. -/
def noSentinel (t : RangeTable) : Prop :=
  ∀ k prs, rtGet t k = some prs → (0, 0) ∉ prs

theorem noSentinel_nil : noSentinel [] := by
  intro k prs h
  simp [rtGet] at h

theorem noSentinel_drLine {t t' : RangeTable} {l : List Char}
    (ht : noSentinel t) (h : drLine t l = some t') : noSentinel t' := by
  unfold drLine at h
  split at h
  · injection h with h; exact h ▸ ht
  · rename_i g1 g2 g3 hm1
    split at h
    · rename_i s e hs he
      split at h
      · injection h with h; exact h ▸ ht
      · rename_i hz
        injection h with h
        subst h
        intro k prs hget hmem
        by_cases hk : k = hexVal g1
        · subst hk
          rw [rtGet_rtAppend_self] at hget
          injection hget with hget
          subst hget
          rcases List.mem_append.mp hmem with hold | hnew
          · cases hg : rtGet t (hexVal g1) with
            | none => rw [hg] at hold; simp at hold
            | some prs0 =>
              rw [hg] at hold
              exact ht (hexVal g1) prs0 hg hold
          · simp only [List.mem_singleton, Prod.mk.injEq] at hnew
            exact hz ⟨hnew.1.symm, hnew.2.symm⟩
        · rw [rtGet_rtAppend_ne _ _ _ _ hk] at hget
          exact ht k prs hget hmem
    · exact absurd h (by simp)

theorem noSentinel_buildRanges_aux (ls : List (List Char)) (acc : Option RangeTable)
    (hacc : ∀ t, acc = some t → noSentinel t) (tb : RangeTable)
    (h : ls.foldl (fun acc l => match acc with | none => none | some t => drLine t l) acc
        = some tb) :
    noSentinel tb := by
  induction ls generalizing acc with
  | nil => exact hacc tb h
  | cons l ls ih =>
    simp only [List.foldl_cons] at h
    cases acc with
    | none =>
      exfalso
      have : ∀ (ms : List (List Char)),
          ms.foldl (fun acc l => match acc with | none => none | some t => drLine t l)
            (none : Option RangeTable) = none := by
        intro ms
        induction ms with
        | nil => rfl
        | cons m ms ihm => simpa using ihm
      rw [this ls] at h
      exact absurd h (by simp)
    | some t =>
      refine ih (drLine t l) ?_ h
      intro t' ht'
      exact noSentinel_drLine (hacc t rfl) ht'

theorem swift_demangle_one_passthrough (swiftOk : Bool) (dem : String → String)
    (s : String) (h : SWIFT_MANGLED s = false) :
    swift_demangle_one swiftOk dem s = s := by
  cases swiftOk <;> simp [swift_demangle_one, h]

/-- With a falsy name, the pair loop emits nothing and counts every valid
pair as missing. -/
theorem emitPairs_falsy (nm? : Option String) (h : truthyS nm? = false)
    (prs : List RangePair) :
    emitPairs nm? prs = ([], (prs.filter (fun pr => pr.1 < pr.2)).length) := by
  induction prs with
  | nil => simp [emitPairs]
  | cons pr rest ih =>
    obtain ⟨s, e⟩ := pr
    by_cases hlt : s < e
    · cases nm? with
      | none => simp [emitPairs, hlt, ih, List.filter]
      | some n =>
        have hn : n = "" := by
          by_contra hne
          simp [truthyS, hne] at h
        subst hn
        simp [emitPairs, hlt, ih, List.filter]
    · cases nm? with
      | none => simp [emitPairs, hlt, ih, List.filter]
      | some n =>
        have hn : n = "" := by
          by_contra hne
          simp [truthyS, hne] at h
        subst hn
        simp [emitPairs, hlt, ih, List.filter]

/-- Every range emitted by the pair loop is positive-width and carries a
non-empty name. -/
theorem mem_emitPairs {nm? : Option String} {prs : List RangePair} {f : FuncRange}
    (h : f ∈ (emitPairs nm? prs).1) : f.1 < f.2.1 ∧ f.2.2 ≠ "" := by
  induction prs with
  | nil => simp [emitPairs] at h
  | cons pr rest ih =>
    obtain ⟨s, e⟩ := pr
    by_cases hlt : s < e
    · cases nm? with
      | none =>
        simp only [emitPairs, hlt, if_true] at h
        exact ih h
      | some n =>
        by_cases hn : n = ""
        · subst hn
          simp [emitPairs, hlt] at h
          exact ih h
        · simp only [emitPairs, hlt, if_true, beq_iff_eq, hn, if_false,
            List.mem_cons] at h
          rcases h with rfl | h
          · exact ⟨hlt, hn⟩
          · exact ih h
    · simp only [emitPairs, hlt, if_false] at h
      exact ih h

theorem mem_emitDirect {nm? : Option String} {d : Die} {f : FuncRange}
    (h : f ∈ (emitDirect nm? d).1) : f.1 < f.2.1 ∧ f.2.2 ≠ "" := by
  cases hl : d.low with
  | none => simp [emitDirect, hl] at h
  | some lo =>
    cases hh : d.high with
    | none => simp [emitDirect, hl, hh] at h
    | some hi =>
      by_cases hlt : lo < hi
      · cases nm? with
        | none => simp [emitDirect, hl, hh, hlt] at h
        | some n =>
          by_cases hn : n = ""
          · subst hn; simp [emitDirect, hl, hh, hlt] at h
          · simp only [emitDirect, hl, hh, hlt, if_true, beq_iff_eq, hn, if_false,
              List.mem_singleton] at h
            subst h
            exact ⟨hlt, hn⟩
      · simp [emitDirect, hl, hh, hlt] at h

theorem mem_emitDie {rm : RangeTable} {nm : NameMap} {dies : List Die} {swiftOk : Bool}
    {dem : String → String} {d : Die} {f : FuncRange}
    (h : f ∈ (emitDie rm nm dies swiftOk dem d).1) : f.1 < f.2.1 ∧ f.2.2 ≠ "" := by
  unfold emitDie at h
  by_cases ht : isSubLike d
  · simp only [ht, Bool.not_true, if_false, Bool.false_eq_true] at h
    rcases List.mem_append.mp h with h | h
    · exact mem_emitDirect h
    · cases hro : d.ranges_off with
      | none => simp [emitIndirect, hro] at h
      | some ro =>
        cases hg : rtGet rm ro with
        | none => simp [emitIndirect, hro, hg] at h
        | some prs =>
          simp only [emitIndirect, hro, hg] at h
          exact mem_emitPairs h
  · simp only [Bool.not_eq_true] at ht
    simp [ht] at h

theorem mem_runEmit {rm : RangeTable} {nm : NameMap} {swiftOk : Bool}
    {dem : String → String} (dies0 : List Die) :
    ∀ (dies : List Die) (acc : List FuncRange × Nat) (f : FuncRange),
      (∀ g ∈ acc.1, g.1 < g.2.1 ∧ g.2.2 ≠ "") →
      f ∈ (dies.foldl
        (fun acc d =>
          let r := emitDie rm nm dies0 swiftOk dem d
          (acc.1 ++ r.1, acc.2 + r.2)) acc).1 →
      f.1 < f.2.1 ∧ f.2.2 ≠ "" := by
  intro dies
  induction dies with
  | nil => intro acc f hacc h; exact hacc f h
  | cons d ds ih =>
    intro acc f hacc h
    simp only [List.foldl_cons] at h
    refine ih _ f ?_ h
    intro g hg
    rcases List.mem_append.mp hg with hg | hg
    · exact hacc g hg
    · exact mem_emitDie hg

/-! ### Claim theorems -/

/-- C7: For any input ordering of debug entries (and any range table, rename
map and demangle collaborator), the final `functions` list is sorted
ascending by start address, with end address ascending as the tie-break. -/
theorem C7_functions_sorted (rm : RangeTable) (nm : NameMap) (dies : List Die)
    (swiftOk : Bool) (dem : String → String) :
    List.Sorted frKeyLe (runFuncs rm nm dies swiftOk dem) :=
  List.sorted_insertionSort frKeyLe _

/-- C1 counterexample: the emitted `functions` list is NOT deduplicated.  A
single subprogram entry whose direct low/high pair (0,1) coincides with the
single pair of its ranges-table entry emits the identical triple twice, so
the final record's `functions` list has a duplicate. -/
theorem C1_no_dedup_cex :
    ¬ List.Nodup (buildResult "img" "uuid" "arm64"
        [(16, [(0, 1)])] []
        [{ tag := "DW_TAG_subprogram", low := some 0, high := some 1,
           ranges_off := some 16, name := some "f" }] false (fun s => s)).functions := by
  decide

/-- C1 amended: the final emitted function-range list is sorted by
(start, end), but it is not deduplicated: it is a permutation of the raw
per-entry contributions, so identical (start, end, name) triples are
retained with their multiplicity. -/
theorem C1_sorted_not_deduplicated (rm : RangeTable) (nm : NameMap) (dies : List Die)
    (swiftOk : Bool) (dem : String → String) (img uuid arch : String) :
    List.Sorted frKeyLe (buildResult img uuid arch rm nm dies swiftOk dem).functions ∧
    List.Perm (buildResult img uuid arch rm nm dies swiftOk dem).functions
      (runEmit rm nm dies swiftOk dem).1 :=
  ⟨List.sorted_insertionSort frKeyLe _, List.perm_insertionSort frKeyLe _⟩

/-- The two-entry reference cycle of C2: A's abstract-origin points to B,
B's specification points to A, neither has a direct name. -/
def dieCycleA : Die := { tag := "DW_TAG_subprogram", off := some 1, abs := some 2 }

def dieCycleB : Die := { tag := "DW_TAG_subprogram", off := some 2, spec := some 1 }

/-- C2: on the cyclic reference graph A -(abstract-origin)-> B
-(specification)-> A with no direct names, name resolution terminates
without exhausting its recursion bound (any fuel of at least 3 gives the
same answer, so the recursion never reaches the artificial cutoff) and
returns no name for both entries on the cycle. -/
theorem C2_cycle_resolution_terminates (nm : NameMap) (fuel : Nat) (h : 3 ≤ fuel) :
    (resolveAux nm [dieCycleA, dieCycleB] fuel dieCycleA []).1 = none ∧
    (resolveAux nm [dieCycleA, dieCycleB] fuel dieCycleB []).1 = none ∧
    resolve_name nm [dieCycleA, dieCycleB] dieCycleA = none ∧
    resolve_name nm [dieCycleA, dieCycleB] dieCycleB = none := by
  obtain ⟨k, rfl⟩ : ∃ k, fuel = k + 3 := ⟨fuel - 3, by omega⟩
  exact ⟨rfl, rfl, rfl, rfl⟩

theorem C2_cycle_resolution_terminates_witness :
    (resolveAux [] [dieCycleA, dieCycleB] 3 dieCycleA []).1 = none ∧
    (resolveAux [] [dieCycleA, dieCycleB] 3 dieCycleB []).1 = none ∧
    resolve_name [] [dieCycleA, dieCycleB] dieCycleA = none ∧
    resolve_name [] [dieCycleA, dieCycleB] dieCycleB = none :=
  C2_cycle_resolution_terminates [] 3 (by omega)

/-- When resolution finds a truthy name whose rename-mapped image does not
look Swift-mangled, the final name is that image, for every demangle
configuration. -/
theorem finalName_of_resolve (nm : NameMap) (dies : List Die) (swiftOk : Bool)
    (dem : String → String) (d : Die) (n : String)
    (hr : resolve_name nm dies d = some n) (hn : n ≠ "")
    (hsw : SWIFT_MANGLED (mapGet nm n) = false) :
    finalName nm dies swiftOk dem d = some (mapGet nm n) := by
  have ht : truthyS (some n) = true := by simp [truthyS, hn]
  have hp := swift_demangle_one_passthrough swiftOk dem (mapGet nm n) hsw
  unfold finalName dieName pyOr
  rw [hr, ht]
  simp [maybe_demangle, hn, hp, ht]

/-- Emission for a run consisting of one subprogram-like entry with an
emittable direct pair, no ranges reference, and a resolved name. -/
theorem runFuncs_single (rm : RangeTable) (nm : NameMap) (d : Die) (swiftOk : Bool)
    (dem : String → String) (lo hi : Nat) (n : String)
    (hsub : isSubLike d = true) (hlow : d.low = some lo) (hhigh : d.high = some hi)
    (hlt : lo < hi) (hro : d.ranges_off = none)
    (hfn : finalName nm [d] swiftOk dem d = some n) (hn : n ≠ "") :
    runFuncs rm nm [d] swiftOk dem = [(lo, hi, n)] := by
  unfold runFuncs runEmit
  simp only [List.foldl_cons, List.foldl_nil]
  unfold emitDie
  simp only [hsub, Bool.not_true, Bool.false_eq_true, if_false, hfn]
  simp [emitDirect, hlow, hhigh, hlt, hn, emitIndirect, hro]

/-- Emission for a run of one emittable subprogram-like entry followed by
one non-subprogram entry (the name carrier of a one-hop resolution). -/
theorem runFuncs_pair (rm : RangeTable) (nm : NameMap) (d1 d2 : Die) (swiftOk : Bool)
    (dem : String → String) (lo hi : Nat) (n : String)
    (hsub1 : isSubLike d1 = true) (hsub2 : isSubLike d2 = false)
    (hlow : d1.low = some lo) (hhigh : d1.high = some hi)
    (hlt : lo < hi) (hro : d1.ranges_off = none)
    (hfn : finalName nm [d1, d2] swiftOk dem d1 = some n) (hn : n ≠ "") :
    runFuncs rm nm [d1, d2] swiftOk dem = [(lo, hi, n)] := by
  unfold runFuncs runEmit
  simp only [List.foldl_cons, List.foldl_nil]
  unfold emitDie
  simp only [hsub1, hsub2, Bool.not_true, Bool.not_false, Bool.false_eq_true, if_false,
    if_true, hfn]
  simp [emitDirect, hlow, hhigh, hlt, hn, emitIndirect, hro]

/-- The rename map of C6. -/
def nmC6 : NameMap := [("obf", "Original")]

/-- C6, scenario 1: an emittable subprogram entry with direct name "obf". -/
def dC6a : Die :=
  { tag := "DW_TAG_subprogram", low := some 0, high := some 1, name := some "obf" }

/-- C6, scenario 2: an emittable entry with no direct name, whose
abstract-origin points at offset 2. -/
def dC6b : Die :=
  { tag := "DW_TAG_subprogram", off := some 1, low := some 0, high := some 1,
    abs := some 2 }

/-- C6, scenario 2: the referenced entry carrying the name "obf". -/
def dC6c : Die := { tag := "DW_TAG_variable", off := some 2, name := some "obf" }

/-- C6: with rename map {"obf": "Original"}, an emittable subprogram entry
with direct name "obf" is emitted as "Original"; and an emittable entry
with no direct name whose abstract-origin resolves in one hop to an entry
named "obf" is also emitted as "Original" — for every demangle
configuration ("Original" does not look Swift-mangled, so it passes the
demangle step unchanged). -/
theorem C6_rename_map_applied (swiftOk : Bool) (dem : String → String) :
    runFuncs [] nmC6 [dC6a] swiftOk dem = [(0, 1, "Original")] ∧
    runFuncs [] nmC6 [dC6b, dC6c] swiftOk dem = [(0, 1, "Original")] := by
  constructor
  · have hfn := finalName_of_resolve nmC6 [dC6a] swiftOk dem dC6a "Original"
      (by decide) (by decide) (by decide)
    rw [show mapGet nmC6 "Original" = "Original" from by decide] at hfn
    exact runFuncs_single [] nmC6 dC6a swiftOk dem 0 1 "Original"
      (by decide) rfl rfl (by decide) rfl hfn (by decide)
  · have hfn := finalName_of_resolve nmC6 [dC6b, dC6c] swiftOk dem dC6b "Original"
      (by decide) (by decide) (by decide)
    rw [show mapGet nmC6 "Original" = "Original" from by decide] at hfn
    exact runFuncs_pair [] nmC6 dC6b dC6c swiftOk dem 0 1 "Original"
      (by decide) (by decide) rfl rfl (by decide) rfl hfn (by decide)

/-- The chained rename map of C9. -/
def nmC9 : NameMap := [("a", "b"), ("b", "c")]

/-- C9, scenario 1: an emittable subprogram entry with direct name "a". -/
def dC9a : Die :=
  { tag := "DW_TAG_subprogram", low := some 0, high := some 1, name := some "a" }

/-- C9, scenario 2: an emittable entry resolving through one hop. -/
def dC9b : Die :=
  { tag := "DW_TAG_subprogram", off := some 1, low := some 0, high := some 1,
    abs := some 2 }

/-- C9, scenario 2: the referenced entry carrying the name "a". -/
def dC9c : Die := { tag := "DW_TAG_variable", off := some 2, name := some "a" }

/-- C9: the rename map is applied to the discovered name at every level of
the resolution chain and then re-applied in the demangling step, so with
map {"a": "b", "b": "c"} an entry with direct name "a" is emitted as "c"
(not "b": resolution returns map("a") = "b" and the demangle step re-maps
"b" to "c"); an entry resolving through one abstract-origin hop to an
entry named "a" is likewise emitted as "c". -/
theorem C9_rename_map_reapplied (swiftOk : Bool) (dem : String → String) :
    runFuncs [] nmC9 [dC9a] swiftOk dem = [(0, 1, "c")] ∧
    runFuncs [] nmC9 [dC9b, dC9c] swiftOk dem = [(0, 1, "c")] := by
  constructor
  · have hfn := finalName_of_resolve nmC9 [dC9a] swiftOk dem dC9a "b"
      (by decide) (by decide) (by decide)
    rw [show mapGet nmC9 "b" = "c" from by decide] at hfn
    exact runFuncs_single [] nmC9 dC9a swiftOk dem 0 1 "c"
      (by decide) rfl rfl (by decide) rfl hfn (by decide)
  · have hfn := finalName_of_resolve nmC9 [dC9b, dC9c] swiftOk dem dC9b "c"
      (by decide) (by decide) (by decide)
    rw [show mapGet nmC9 "c" = "c" from by decide] at hfn
    exact runFuncs_pair [] nmC9 dC9b dC9c swiftOk dem 0 1 "c"
      (by decide) (by decide) rfl rfl (by decide) rfl hfn (by decide)

/-- C3: a subprogram-like entry carrying a valid direct pair (high > low)
AND a ranges reference resolving to exactly two valid pairs, with a
resolved (truthy) final name, emits exactly three FunctionRanges — the
direct one followed by the two indirect ones — all with that same name,
and no missing-name increment. -/
theorem C3_direct_and_indirect_additive (rm : RangeTable) (nm : NameMap)
    (dies : List Die) (swiftOk : Bool) (dem : String → String) (d : Die)
    (lo hi ro s1 e1 s2 e2 : Nat) (n : String)
    (hsub : isSubLike d = true)
    (hlow : d.low = some lo) (hhigh : d.high = some hi) (hlt : lo < hi)
    (hro : d.ranges_off = some ro) (hrt : rtGet rm ro = some [(s1, e1), (s2, e2)])
    (h1 : s1 < e1) (h2 : s2 < e2)
    (hname : finalName nm dies swiftOk dem d = some n) (hn : n ≠ "") :
    emitDie rm nm dies swiftOk dem d = ([(lo, hi, n), (s1, e1, n), (s2, e2, n)], 0) := by
  unfold emitDie
  simp only [hsub, Bool.not_true, Bool.false_eq_true, if_false, hname]
  simp [emitDirect, hlow, hhigh, hlt, hn, emitIndirect, hro, hrt, emitPairs, h1, h2]

/-- The concrete entry instantiating C3. -/
def dC3 : Die :=
  { tag := "DW_TAG_subprogram", low := some 0, high := some 1,
    ranges_off := some 4096, name := some "f" }

theorem C3_direct_and_indirect_additive_witness :
    emitDie [(4096, [(10, 20), (30, 40)])] [] [dC3] false (fun s => s) dC3 =
      ([(0, 1, "f"), (10, 20, "f"), (30, 40, "f")], 0) :=
  C3_direct_and_indirect_additive [(4096, [(10, 20), (30, 40)])] [] [dC3] false
    (fun s => s) dC3 0 1 4096 10 20 30 40 "f" (by decide) rfl rfl (by decide) rfl
    (by decide) (by decide) (by decide) (by decide) (by decide)

/-- C5: on an attribute line carrying only the udata-encoded high address,
the open entry's high becomes low + delta when low is already set; when
low is absent the high field is left untouched (the attribute is ignored);
and a direct pair with derived high not exceeding low is never emitted
(and not counted). -/
theorem C5_high_delta (cur : Die) (l : List Char) (delta : Nat)
    (htag : searchTag l = none) (hlow : searchLow l = none) (hhia : searchHia l = none)
    (hhiud : searchHiud l = some delta) :
    (∀ (ds : List Die) (lo : Nat), cur.low = some lo →
        diStep (ds, some cur) l = (ds, some { cur with high := some (lo + delta) })) ∧
    (cur.low = none → (applyAttr cur l).high = cur.high) ∧
    (∀ (nm? : Option String) (d : Die) (lo hi : Nat),
        d.low = some lo → d.high = some hi → ¬ lo < hi → emitDirect nm? d = ([], 0)) := by
  refine ⟨?_, ?_, ?_⟩
  · intro ds lo hlo
    unfold diStep
    simp only [htag]
    unfold applyAttr
    simp only [hlow, hhia, hhiud, hlo]
  · intro hlo
    unfold applyAttr
    simp only [hlow, hhia, hhiud, hlo]
    repeat' split
    all_goals simp
  · intro nm? d lo hi hl hh hlt
    simp [emitDirect, hl, hh, hlt]

/-- The concrete open entry instantiating C5. -/
def dC5 : Die := { tag := "DW_TAG_subprogram", low := some 16 }

theorem C5_high_delta_witness :
    diStep ([], some dC5) ("  DW_AT_high_pc (udata: 16)".data) =
      ([], some { dC5 with high := some 32 }) :=
  (C5_high_delta dC5 ("  DW_AT_high_pc (udata: 16)".data) 16
    (by decide) (by decide) (by decide) (by decide)).1 [] 16 rfl

/-- The number of emittable ranges of one entry: one for a valid direct
pair, plus one per valid pair of its ranges-table entry.  This is exactly
what the missing-name counter receives for a nameless entry. -/
def missCount (rm : RangeTable) (d : Die) : Nat :=
  (match d.low, d.high with
   | some lo, some hi => if lo < hi then 1 else 0
   | _, _ => 0) +
  (match d.ranges_off with
   | some ro =>
     match rtGet rm ro with
     | some prs => (prs.filter (fun pr => pr.1 < pr.2)).length
     | none => 0
   | none => 0)

theorem emitDirect_falsy (nm? : Option String) (h : truthyS nm? = false) (d : Die) :
    emitDirect nm? d = ([], match d.low, d.high with
      | some lo, some hi => if lo < hi then 1 else 0
      | _, _ => 0) := by
  cases hl : d.low with
  | none => simp [emitDirect, hl]
  | some lo =>
    cases hh : d.high with
    | none => simp [emitDirect, hl, hh]
    | some hi =>
      by_cases hlt : lo < hi
      · cases nm? with
        | none => simp [emitDirect, hl, hh, hlt]
        | some n =>
          have hn : n = "" := by
            by_contra hne
            simp [truthyS, hne] at h
          subst hn
          simp [emitDirect, hl, hh, hlt]
      · simp [emitDirect, hl, hh, hlt]

theorem emitIndirect_falsy (rm : RangeTable) (nm? : Option String)
    (h : truthyS nm? = false) (d : Die) :
    emitIndirect rm nm? d = ([], match d.ranges_off with
      | some ro =>
        match rtGet rm ro with
        | some prs => (prs.filter (fun pr => pr.1 < pr.2)).length
        | none => 0
      | none => 0) := by
  cases hro : d.ranges_off with
  | none => simp [emitIndirect, hro]
  | some ro =>
    cases hg : rtGet rm ro with
    | none => simp [emitIndirect, hro, hg]
    | some prs => simp [emitIndirect, hro, hg, emitPairs_falsy nm? h prs]

/-- C8: every emitted FunctionRange has end > start and a non-empty name;
and a subprogram-like entry whose name does not resolve contributes
nothing to the output, each of its emittable ranges going to the
missing-name counter instead. -/
theorem C8_output_invariants :
    (∀ (rm : RangeTable) (nm : NameMap) (dies : List Die) (swiftOk : Bool)
        (dem : String → String) (f : FuncRange),
        f ∈ runFuncs rm nm dies swiftOk dem → f.1 < f.2.1 ∧ f.2.2 ≠ "") ∧
    (∀ (rm : RangeTable) (nm : NameMap) (dies : List Die) (swiftOk : Bool)
        (dem : String → String) (d : Die),
        isSubLike d = true →
        truthyS (finalName nm dies swiftOk dem d) = false →
        emitDie rm nm dies swiftOk dem d = ([], missCount rm d)) := by
  constructor
  · intro rm nm dies swiftOk dem f hf
    have hperm := List.perm_insertionSort frKeyLe (runEmit rm nm dies swiftOk dem).1
    have hf' : f ∈ (runEmit rm nm dies swiftOk dem).1 := hperm.mem_iff.mp hf
    exact mem_runEmit dies dies ([], 0) f (by simp) hf'
  · intro rm nm dies swiftOk dem d hsub hfn
    unfold emitDie
    simp only [hsub, Bool.not_true, Bool.false_eq_true, if_false,
      emitDirect_falsy _ hfn, emitIndirect_falsy _ _ hfn]
    simp [missCount]

/-- The named concrete entry instantiating the first part of C8. -/
def dC8a : Die :=
  { tag := "DW_TAG_subprogram", low := some 0, high := some 1, name := some "f" }

/-- The nameless concrete entry instantiating the second part of C8. -/
def dC8b : Die := { tag := "DW_TAG_subprogram", low := some 0, high := some 1 }

theorem C8_output_invariants_witness :
    ((0 : Nat) < 1 ∧ ("f" : String) ≠ "") ∧
    emitDie [] [] [dC8b] false (fun s => s) dC8b = ([], missCount [] dC8b) :=
  ⟨C8_output_invariants.1 [] [] [dC8a] false (fun s => s) (0, 1, "f") (by decide),
   C8_output_invariants.2 [] [] [dC8b] false (fun s => s) dC8b (by decide) (by decide)⟩

/-- C4: on a line matched by the ranges pattern whose two addresses parse,
the (0,0) sentinel pair is discarded (table unchanged); every other pair
is appended at the end of the list keyed by the parsed offset, leaving all
other keys unchanged; and no (0,0) pair is ever present in a fully built
RangeTable. -/
theorem C4_sentinel_discarded_rest_appended (t : RangeTable) (l : List Char)
    (g1 g2 g3 : List Char) (s e : Nat)
    (hm : rxDrMatch l = some (g1, g2, g3))
    (hs : parseAddrTok g2 = some s) (he : parseAddrTok g3 = some e) :
    ((s = 0 ∧ e = 0) → drLine t l = some t) ∧
    (¬(s = 0 ∧ e = 0) →
      drLine t l = some (rtAppend t (hexVal g1) (s, e)) ∧
      rtGet (rtAppend t (hexVal g1) (s, e)) (hexVal g1) =
        some ((rtGet t (hexVal g1)).getD [] ++ [(s, e)]) ∧
      (∀ k, k ≠ hexVal g1 →
        rtGet (rtAppend t (hexVal g1) (s, e)) k = rtGet t k)) ∧
    (∀ (ls : List (List Char)) (tb : RangeTable), buildRanges ls = some tb →
      ∀ k prs, rtGet tb k = some prs → (0, 0) ∉ prs) := by
  refine ⟨?_, ?_, ?_⟩
  · intro hz
    simp [drLine, hm, hs, he, hz]
  · intro hz
    refine ⟨?_, rtGet_rtAppend_self t (hexVal g1) (s, e),
      fun k hk => rtGet_rtAppend_ne t (hexVal g1) (s, e) k hk⟩
    simp [drLine, hm, hs, he, hz]
  · intro ls tb hb
    refine noSentinel_buildRanges_aux ls (some []) ?_ tb hb
    intro t0 ht0
    injection ht0 with ht0
    exact ht0 ▸ noSentinel_nil

theorem C4_sentinel_discarded_rest_appended_witness :
    drLine [(7, [(1, 2)])] ("001000  0x100  0x200".data) =
      some (rtAppend [(7, [(1, 2)])] (hexVal ("001000".data)) (256, 512)) :=
  ((C4_sentinel_discarded_rest_appended [(7, [(1, 2)])] ("001000  0x100  0x200".data)
      ("001000".data) ("0x100".data) ("0x200".data) 256 512
      (by decide) (by decide) (by decide)).2.1 (by decide)).1

/-- C10: a ranges-dump line whose leading hex token is shorter than four
digits is not recognized by the ranges pattern at all — even with a
well-formed remainder — and therefore contributes nothing to the table. -/
theorem C10_short_offset_not_recognized (ws t rest : List Char) (tbl : RangeTable)
    (hws : ∀ c ∈ ws, isPySpace c = true)
    (ht : ∀ c ∈ t, isHexDigitCh c = true)
    (hne : t ≠ []) (hlen : t.length < 4)
    (hrest : ∀ c, rest.head? = some c → isHexDigitCh c = false) :
    rxDrMatch (ws ++ t ++ rest) = none ∧ drLine tbl (ws ++ t ++ rest) = some tbl := by
  have hhead : ∀ c, (t ++ rest).head? = some c → isPySpace c = false := by
    intro c hc
    cases t with
    | nil => exact absurd rfl hne
    | cons a t' =>
      have ha : a = c := by
        simpa using hc
      subst ha
      exact hex_not_space (ht a (List.mem_cons_self a t'))
  obtain ⟨htw, hdw⟩ := takeWhile_append_of_all hws hhead
  obtain ⟨htw2, hdw2⟩ := takeWhile_append_of_all ht hrest
  have h0 : rxDrMatch (ws ++ t ++ rest) = none := by
    unfold rxDrMatch
    rw [List.append_assoc, hdw]
    simp only [htw2]
    simp [hlen]
  refine ⟨h0, ?_⟩
  have h0' : rxDrMatch (ws ++ (t ++ rest)) = none := by
    rw [← List.append_assoc]
    exact h0
  simp [drLine, h0, h0']

theorem C10_short_offset_not_recognized_witness :
    rxDrMatch ([] ++ "123".data ++ " 0x10 0x20".data) = none ∧
    drLine [] ([] ++ "123".data ++ " 0x10 0x20".data) = some [] :=
  C10_short_offset_not_recognized [] ("123".data) (" 0x10 0x20".data) []
    (by decide) (by decide) (by decide) (by decide)
    (by
      intro c hc
      have h := Option.some.inj hc
      subst h
      rfl)
